import Mathlib

/-!
Verification of the statistical shape model (SSM) numerical core of the
NotebookSSM repository (notebook `NoteBookSSM__SummerSchool_students.ipynb`).

The notebook's numerical pipeline is:
  * ShapeMatrixBuilder: read each shape's 3-D points, flatten them to
    `[x0,y0,z0,x1,y1,z1,...]`, and stack the flattened shapes with
    `np.array(shapes)` into the sample matrix `X` (M shapes x N features).
  * DecompositionEngine: `X_mean = np.mean(X, axis=0)`,
    `X_centered = X - X_mean`, then `pca = PCA(); pca.fit(X_centered)`;
    the principal components, the explained variances and the coefficients
    (`pca.transform(X_centered)`) come out of the fitted PCA object.
  * Projector/Reconstructor: `np.dot(coeffs[0, :k], components[:, :k].T) + X_mean`
    and the mean-squared reconstruction error `np.mean((orig - rec) ** 2)`.
  * ModeExplorer: `mode_std = np.std(coeffs[:, mode])` and the two perturbed
    shapes `X_mean ± coeff * mode_std * components[:, mode]`.

Real-valued data is embedded as exact rationals (`ℚ`); the single square root
(`np.std`) is taken in `ℝ`.  The PCA decomposition itself is performed by
scikit-learn, whose code is not part of the repository; its outcome is
modelled relationally from the spec (see `IsFit`).
-/

namespace SSM

/-- Column-wise mean of the sample matrix; models `X_mean = np.mean(X, axis=0)`. -/
def colMean {M N : ℕ} (X : Fin M → Fin N → ℚ) : Fin N → ℚ :=
  fun n => (∑ i, X i n) / (M : ℚ)

/-- Row-wise centering of the sample matrix; models `X_centered = X - X_mean`. -/
def centered {M N : ℕ} (X : Fin M → Fin N → ℚ) : Fin M → Fin N → ℚ :=
  fun i n => X i n - colMean X n

/-- Euclidean dot product of two feature vectors. -/
def dot {N : ℕ} (u v : Fin N → ℚ) : ℚ := ∑ n, u n * v n

/-- The output of `pca.fit` as the notebook consumes it: the mean shape, the
principal directions (`pca.components_`), the explained variances and the
per-sample coefficients (`pca.transform(X_centered)`). -/
structure FittedModel (M N K : ℕ) where
  meanShape : Fin N → ℚ
  basis : Fin K → Fin N → ℚ
  explainedVariance : Fin K → ℚ
  coefficients : Fin M → Fin K → ℚ

/-- Modelled from the spec: the postconditions of `DecompositionEngine.fit`
(the scikit-learn `PCA.fit` call, whose code is not in the repository).
Following spec section 4.2, the decomposition is a singular value
decomposition of the centered matrix: the basis vectors are orthonormal,
the coefficients are the projections of the centered rows onto the basis,
every centered row is exactly rebuilt from its coefficients (all
`min(M, N)` right singular vectors are kept, so the rows lie in the span of
the basis), the coefficient columns are orthogonal with squared norm
`(M - 1) * explainedVariance` (scikit-learn sets
`explained_variance_ = S**2 / (M - 1)`), the variances are sorted in
descending order, and `K ≤ M` with at least two samples. -/
structure IsFit {M N K : ℕ} (X : Fin M → Fin N → ℚ) (md : FittedModel M N K) : Prop where
  mean_eq : md.meanShape = colMean X
  hKM : K ≤ M
  two_le : 2 ≤ M
  orthonormal : ∀ a b, dot (md.basis a) (md.basis b) = if a = b then 1 else 0
  coeff_eq : ∀ i j, md.coefficients i j = dot (centered X i) (md.basis j)
  reconstruct : ∀ i n, centered X i n = ∑ j, md.coefficients i j * md.basis j n
  coeff_orth : ∀ a b, (∑ i, md.coefficients i a * md.coefficients i b)
      = if a = b then ((M : ℚ) - 1) * md.explainedVariance a else 0
  sorted : ∀ a b : Fin K, a ≤ b → md.explainedVariance b ≤ md.explainedVariance a

/-- Projection of a shape onto the basis; models `pca.transform` applied to a
single (not yet centered) shape: subtract the mean shape, then take the inner
product with each principal component. -/
def encode {M N K : ℕ} (md : FittedModel M N K) (x : Fin N → ℚ) : Fin K → ℚ :=
  fun j => dot (fun n => x n - md.meanShape n) (md.basis j)

/-- Reconstruction from the first `k` components; models
`np.dot(coeffs[:k], components[:, :k].T) + X_mean`. -/
def decode {M N K : ℕ} (md : FittedModel M N K) (c : Fin K → ℚ) (k : ℕ) : Fin N → ℚ :=
  fun n => md.meanShape n + ∑ j : Fin K, if (j : ℕ) < k then c j * md.basis j n else 0

/-- Mean squared reconstruction error; models `np.mean((orig - rec) ** 2)`. -/
def reconstructionError {N : ℕ} (a b : Fin N → ℚ) : ℚ :=
  (∑ n, (a n - b n) ^ 2) / (N : ℚ)

/-- The feature covariance matrix of the centered data with denominator
`M - 1`; models `np.cov(X.T)` in the notebook's opening demonstration. -/
def cov {M N : ℕ} (C : Fin M → Fin N → ℚ) : Fin N → Fin N → ℚ :=
  fun a b => (∑ i, C i a * C i b) / ((M : ℚ) - 1)

/-- Stated from the spec's words for the refinement claim: `(lam, v)` is an
eigenpair of the matrix `A` (`np.linalg.eigh` on the covariance matrix). -/
def IsEigenpair {N : ℕ} (A : Fin N → Fin N → ℚ) (lam : ℚ) (v : Fin N → ℚ) : Prop :=
  v ≠ 0 ∧ ∀ a, (∑ b, A a b * v b) = lam * v a

/-- Population variance of the coefficients of one mode; the radicand of
`np.std(principal_coefficients[:, selected_mode])`. -/
def modeVariance {M N K : ℕ} (md : FittedModel M N K) (m : Fin K) : ℚ :=
  (∑ i, (md.coefficients i m - (∑ i2, md.coefficients i2 m) / (M : ℚ)) ^ 2) / (M : ℚ)

/-- Standard deviation of the coefficients of one mode; models
`np.std(principal_coefficients[:, selected_mode])`. -/
noncomputable def modeStd {M N K : ℕ} (md : FittedModel M N K) (m : Fin K) : ℝ :=
  Real.sqrt ((modeVariance md m : ℚ) : ℝ)

/-- ModeExplorer perturbation; models
`effect_selcted_mode_pos_flat = X_mean + coeff * mode_std * principal_components[:, selected_mode]`
and `effect_selcted_mode_neg_flat = X_mean - coeff * mode_std * principal_components[:, selected_mode]`. -/
noncomputable def perturb {M N K : ℕ} (md : FittedModel M N K) (m : Fin K) (s : ℝ) :
    (Fin N → ℝ) × (Fin N → ℝ) :=
  (fun n => ((md.meanShape n : ℚ) : ℝ) + s * modeStd md m * ((md.basis m n : ℚ) : ℝ),
   fun n => ((md.meanShape n : ℚ) : ℝ) - s * modeStd md m * ((md.basis m n : ℚ) : ℝ))

/-- Ratio of each explained variance to the total; models
`pca.explained_variance_ratio_` (all `min(M, N)` components are kept, so the
total variance is the sum of the explained variances). -/
def explainedVarianceRatio {M N K : ℕ} (md : FittedModel M N K) : Fin K → ℚ :=
  fun j => md.explainedVariance j / (∑ j2, md.explainedVariance j2)

/-- A 3-D point of a shape. -/
structure Point3 where
  x : ℚ
  y : ℚ
  z : ℚ
deriving DecidableEq

/-- Flattening of one shape's points; models the inner loop
`shape.extend(points.GetPoint(i))` producing `[x0, y0, z0, x1, y1, z1, ...]`. -/
def flattenShape (ps : List Point3) : List ℚ :=
  ps.flatMap fun p => [p.x, p.y, p.z]

/-- Stacking of the flattened shapes; models `X = np.array(shapes)`: on an
empty list numpy returns an empty array, on rows of equal length it returns
the rectangular matrix, and on ragged rows it raises (it cannot form a
rectangular array), modelled as `none`. -/
def npStack (rows : List (List ℚ)) : Option (List (List ℚ)) :=
  match rows with
  | [] => some []
  | r :: rs => if rs.all (fun q => q.length = r.length) then some (r :: rs) else none

/-- ShapeMatrixBuilder; models the notebook cell that flattens every shape
into `shapes` and then forms `X = np.array(shapes)`. -/
def buildShapeMatrix (shapes : List (List Point3)) : Option (List (List ℚ)) :=
  npStack (shapes.map flattenShape)

/-- A floating-point input value: either a finite number or a non-finite one
(NaN or an infinity). -/
inductive FVal where
  | fin (x : ℚ)
  | nonfinite
deriving DecidableEq

/-- Whether a floating-point input value is finite. -/
def FVal.isFinite : FVal → Bool
  | .fin _ => true
  | .nonfinite => false

/-- The error signalled by `fit` on degenerate input. -/
inductive FitError where
  | DegenerateInput
deriving DecidableEq

/-- Modelled from the spec: the input validation of `DecompositionEngine.fit`
(spec section 4.2; the scikit-learn `PCA.fit` validation code is not in the
repository): fail with `DegenerateInput` when `M < 2` or when the sample
matrix contains a non-finite value, succeed otherwise. -/
def fitValidation (M N : ℕ) (X : Fin M → Fin N → FVal) : Except FitError Unit :=
  if M < 2 then .error .DegenerateInput
  else if ∀ i, ∀ n, (X i n).isFinite then .ok () else .error .DegenerateInput

end SSM

namespace SSM

lemma flattenShape_length (ps : List Point3) :
    (flattenShape ps).length = 3 * ps.length := by
  induction ps with
  | nil => simp [flattenShape]
  | cons p ps ih =>
      simp only [flattenShape, List.flatMap_cons] at ih ⊢
      simp [ih]; ring

/-- C8: for every coefficients row and every fitted model, decoding with
`k = 0` components returns exactly the mean shape: the sum over an empty
prefix of the basis contributes nothing. -/
theorem C8_decode_zero_eq_meanShape {M N K : ℕ} (md : FittedModel M N K)
    (c : Fin K → ℚ) (n : Fin N) : decode md c 0 n = md.meanShape n := by
  simp [decode]

/-- C9: for every fitted model and every mode index, `perturb` with scale
factor `0` returns two shapes both equal to the mean shape. -/
theorem C9_perturb_zero_eq_meanShape {M N K : ℕ} (md : FittedModel M N K)
    (m : Fin K) (n : Fin N) :
    (perturb md m 0).1 n = ((md.meanShape n : ℚ) : ℝ) ∧
      (perturb md m 0).2 n = ((md.meanShape n : ℚ) : ℝ) := by
  constructor <;> simp [perturb]

/-- C10: for every fitted model, mode index and scale factor, the two shapes
returned by `perturb` are mirror images about the mean:
`positive + negative = 2 * meanShape` feature-wise. -/
theorem C10_perturb_symmetric {M N K : ℕ} (md : FittedModel M N K)
    (m : Fin K) (s : ℝ) (n : Fin N) :
    (perturb md m s).1 n + (perturb md m s).2 n
      = 2 * ((md.meanShape n : ℚ) : ℝ) := by
  simp only [perturb]
  ring

/-- C6 counterexample: on the empty set of shapes the builder does not fail
(it returns the empty matrix, the behaviour of `np.array([])`), contradicting
the claim that it fails with `EmptyInput`. -/
theorem C6_counterexample :
    buildShapeMatrix ([] : List (List Point3)) = some [] ∧
      buildShapeMatrix ([] : List (List Point3)) ≠ none := by
  constructor <;> simp [buildShapeMatrix, npStack]

/-- C6 amended: the builder performs no explicit validation.  Given an empty
set it returns the empty matrix (it does not fail); given a set whose shapes
all share one point count it produces the matrix whose row `i` is the
flattening of shape `i`; given two shapes with differing point counts the
stacking step fails (numpy cannot form a rectangular array), though with
numpy's own error rather than a dedicated `ShapeMismatch`. -/
theorem C6_builder_behaviour :
    (buildShapeMatrix ([] : List (List Point3)) = some []) ∧
    (∀ shapes : List (List Point3),
      (∀ s1 ∈ shapes, ∀ s2 ∈ shapes, s1.length = s2.length) →
        buildShapeMatrix shapes = some (shapes.map flattenShape)) ∧
    (∀ (shapes : List (List Point3)) (s1 s2 : List Point3),
      s1 ∈ shapes → s2 ∈ shapes → s1.length ≠ s2.length →
        buildShapeMatrix shapes = none) := by
  refine ⟨rfl, ?_, ?_⟩
  · intro shapes hcons
    cases shapes with
    | nil => rfl
    | cons s ss =>
        unfold buildShapeMatrix npStack
        simp only [List.map_cons]
        rw [if_pos]
        rw [List.all_eq_true]
        intro q hq
        rw [List.mem_map] at hq
        obtain ⟨t, ht, rfl⟩ := hq
        have : t.length = s.length :=
          hcons t (List.mem_cons_of_mem _ ht) s (List.mem_cons_self _ _)
        simp [flattenShape_length, this]
  · intro shapes s1 s2 h1 h2 hne
    cases shapes with
    | nil => exact absurd h1 (List.not_mem_nil _)
    | cons s ss =>
        unfold buildShapeMatrix npStack
        simp only [List.map_cons]
        rw [if_neg]
        rw [List.all_eq_true]
        intro hall
        have hlen : ∀ t ∈ s :: ss, t.length = s.length := by
          intro t ht
          rcases List.mem_cons.mp ht with h | h
          · rw [h]
          · have := hall (flattenShape t) (List.mem_map_of_mem _ h)
            have h3 : (flattenShape t).length = (flattenShape s).length := by
              simpa using this
            rw [flattenShape_length, flattenShape_length] at h3
            omega
        exact hne ((hlen s1 h1).trans (hlen s2 h2).symm)

theorem C6_builder_behaviour_witness :
    buildShapeMatrix [[Point3.mk 0 0 0], [Point3.mk 0 0 0, Point3.mk 1 1 1]] = none ∧
      buildShapeMatrix [[Point3.mk 1 2 3]] = some [[1, 2, 3]] := by
  constructor
  · exact C6_builder_behaviour.2.2 _ [Point3.mk 0 0 0]
      [Point3.mk 0 0 0, Point3.mk 1 1 1] (by simp) (by simp) (by decide)
  · have h := C6_builder_behaviour.2.1 [[Point3.mk 1 2 3]] (by decide)
    simpa [flattenShape] using h

/-- C7: `fit`'s validation fails with `DegenerateInput` exactly when `M < 2`
or the sample matrix contains a non-finite value; the `Except` result carries
no model in the error case, so no `FittedModel` is produced. -/
theorem C7_fit_degenerate (M N : ℕ) (X : Fin M → Fin N → FVal) :
    fitValidation M N X = .error .DegenerateInput ↔
      (M < 2 ∨ ∃ i, ∃ n, (X i n).isFinite = false) := by
  unfold fitValidation
  split_ifs with h1 h2
  · simp [h1]
  · simp only [reduceCtorEq, false_iff]
    push_neg
    refine ⟨by omega, ?_⟩
    intro i n
    simp [h2 i n]
  · simp only [true_iff]
    right
    push_neg at h2
    obtain ⟨i, n, h⟩ := h2
    exact ⟨i, n, by simpa using h⟩

theorem C7_fit_degenerate_witness :
    fitValidation 1 1 (fun _ _ => FVal.fin 0) = .error .DegenerateInput ∧
      fitValidation 2 1 (fun _ _ => FVal.nonfinite) = .error .DegenerateInput :=
  ⟨(C7_fit_degenerate 1 1 _).mpr (Or.inl (by decide)),
   (C7_fit_degenerate 2 1 _).mpr (Or.inr ⟨0, 0, rfl⟩)⟩

end SSM

namespace SSM

lemma dot_sum_orthonormal {K N : ℕ} {v : Fin K → Fin N → ℚ}
    (hv : ∀ a b, dot (v a) (v b) = if a = b then 1 else 0)
    (g : Fin K → ℚ) (a : Fin K) :
    (∑ n, (∑ j, g j * v j n) * v a n) = g a := by
  calc (∑ n, (∑ j, g j * v j n) * v a n)
      = ∑ n, ∑ j, (g j * v j n) * v a n := by
        refine Finset.sum_congr rfl fun n _ => ?_
        rw [Finset.sum_mul]
    _ = ∑ j, ∑ n, (g j * v j n) * v a n := Finset.sum_comm
    _ = ∑ j, g j * dot (v j) (v a) := by
        refine Finset.sum_congr rfl fun j _ => ?_
        rw [dot, Finset.mul_sum]
        refine Finset.sum_congr rfl fun n _ => ?_
        ring
    _ = ∑ j, if j = a then g j else 0 := by
        refine Finset.sum_congr rfl fun j _ => ?_
        rw [hv j a]
        by_cases h : j = a <;> simp [h]
    _ = g a := by
        rw [Finset.sum_ite_eq' Finset.univ a g]
        simp

lemma sum_sq_orthonormal {K N : ℕ} {v : Fin K → Fin N → ℚ}
    (hv : ∀ a b, dot (v a) (v b) = if a = b then 1 else 0)
    (c : Fin K → ℚ) (S : Finset (Fin K)) :
    (∑ n, (∑ j ∈ S, c j * v j n) ^ 2) = ∑ j ∈ S, c j ^ 2 := by
  calc (∑ n, (∑ j ∈ S, c j * v j n) ^ 2)
      = ∑ n, ∑ j ∈ S, ∑ l ∈ S, (c j * c l) * (v j n * v l n) := by
        refine Finset.sum_congr rfl fun n _ => ?_
        rw [sq, Finset.sum_mul_sum]
        refine Finset.sum_congr rfl fun j _ => ?_
        refine Finset.sum_congr rfl fun l _ => ?_
        ring
    _ = ∑ j ∈ S, ∑ n, ∑ l ∈ S, (c j * c l) * (v j n * v l n) := Finset.sum_comm
    _ = ∑ j ∈ S, ∑ l ∈ S, ∑ n, (c j * c l) * (v j n * v l n) := by
        refine Finset.sum_congr rfl fun j _ => ?_
        exact Finset.sum_comm
    _ = ∑ j ∈ S, ∑ l ∈ S, (c j * c l) * dot (v j) (v l) := by
        refine Finset.sum_congr rfl fun j _ => ?_
        refine Finset.sum_congr rfl fun l _ => ?_
        rw [dot, Finset.mul_sum]
    _ = ∑ j ∈ S, ∑ l ∈ S, if j = l then c j * c l else 0 := by
        refine Finset.sum_congr rfl fun j _ => ?_
        refine Finset.sum_congr rfl fun l _ => ?_
        rw [hv j l]
        by_cases h : j = l <;> simp [h]
    _ = ∑ j ∈ S, c j ^ 2 := by
        refine Finset.sum_congr rfl fun j hj => ?_
        rw [Finset.sum_ite_eq S j (fun l => c j * c l), if_pos hj, sq]

lemma encode_fit_eq_coefficients {M N K : ℕ} {X : Fin M → Fin N → ℚ}
    {md : FittedModel M N K} (hf : IsFit X md) (i : Fin M) :
    encode md (X i) = md.coefficients i := by
  funext j
  show dot (fun n => X i n - md.meanShape n) (md.basis j) = md.coefficients i j
  rw [hf.coeff_eq i j, hf.mean_eq]
  rfl

/-- C2: for every sample included in the fit, decoding its encoded
coefficients with all `K` components returns exactly the original sample
(so in particular within the spec's `1e-6` relative tolerance). -/
theorem C2_roundtrip_exact {M N K : ℕ} {X : Fin M → Fin N → ℚ}
    {md : FittedModel M N K} (hf : IsFit X md) (i : Fin M) (n : Fin N) :
    decode md (encode md (X i)) K n = X i n := by
  rw [encode_fit_eq_coefficients hf i]
  show md.meanShape n + (∑ j : Fin K, if (j : ℕ) < K then md.coefficients i j * md.basis j n else 0) = X i n
  have hall : ∀ j : Fin K,
      (if (j : ℕ) < K then md.coefficients i j * md.basis j n else 0)
        = md.coefficients i j * md.basis j n := fun j => if_pos j.isLt
  rw [Finset.sum_congr rfl fun j _ => hall j, ← hf.reconstruct i n, hf.mean_eq]
  show colMean X n + (X i n - colMean X n) = X i n
  ring

lemma decode_residual {M N K : ℕ} {X : Fin M → Fin N → ℚ}
    {md : FittedModel M N K} (hf : IsFit X md) (i : Fin M) (k : ℕ) (n : Fin N) :
    X i n - decode md (md.coefficients i) k n
      = ∑ j ∈ Finset.univ.filter (fun j : Fin K => ¬ (j : ℕ) < k),
          md.coefficients i j * md.basis j n := by
  have hX : X i n = centered X i n + md.meanShape n := by
    rw [hf.mean_eq]
    show X i n = (X i n - colMean X n) + colMean X n
    ring
  rw [hX, hf.reconstruct i n, Finset.sum_filter]
  show (∑ j, md.coefficients i j * md.basis j n) + md.meanShape n
      - (md.meanShape n + ∑ j : Fin K, if (j : ℕ) < k then md.coefficients i j * md.basis j n else 0)
      = ∑ j : Fin K, if ¬ (j : ℕ) < k then md.coefficients i j * md.basis j n else 0
  have hsplit : ∀ j : Fin K,
      (if ¬ (j : ℕ) < k then md.coefficients i j * md.basis j n else 0)
        = md.coefficients i j * md.basis j n
          - (if (j : ℕ) < k then md.coefficients i j * md.basis j n else 0) := by
    intro j
    by_cases h : (j : ℕ) < k <;> simp [h]
  rw [Finset.sum_congr rfl fun j _ => hsplit j, Finset.sum_sub_distrib]
  ring

lemma reconstructionError_eq {M N K : ℕ} {X : Fin M → Fin N → ℚ}
    {md : FittedModel M N K} (hf : IsFit X md) (i : Fin M) (k : ℕ) :
    reconstructionError (X i) (decode md (md.coefficients i) k)
      = (∑ j ∈ Finset.univ.filter (fun j : Fin K => ¬ (j : ℕ) < k),
          md.coefficients i j ^ 2) / (N : ℚ) := by
  rw [reconstructionError]
  congr 1
  calc (∑ n, (X i n - decode md (md.coefficients i) k n) ^ 2)
      = ∑ n, (∑ j ∈ Finset.univ.filter (fun j : Fin K => ¬ (j : ℕ) < k),
          md.coefficients i j * md.basis j n) ^ 2 := by
        refine Finset.sum_congr rfl fun n _ => ?_
        rw [decode_residual hf i k n]
    _ = ∑ j ∈ Finset.univ.filter (fun j : Fin K => ¬ (j : ℕ) < k),
          md.coefficients i j ^ 2 :=
        sum_sq_orthonormal hf.orthonormal (md.coefficients i) _

/-- C3: for every sample of the fitted population, the mean-squared
reconstruction error with the first `k + 1` components is at most the error
with the first `k` components. -/
theorem C3_error_monotone {M N K : ℕ} {X : Fin M → Fin N → ℚ}
    {md : FittedModel M N K} (hf : IsFit X md) (i : Fin M) (k : ℕ) :
    reconstructionError (X i) (decode md (md.coefficients i) (k + 1))
      ≤ reconstructionError (X i) (decode md (md.coefficients i) k) := by
  rw [reconstructionError_eq hf i (k + 1), reconstructionError_eq hf i k]
  have hsub : (Finset.univ.filter (fun j : Fin K => ¬ (j : ℕ) < k + 1))
      ⊆ Finset.univ.filter (fun j : Fin K => ¬ (j : ℕ) < k) := by
    intro j hj
    simp only [Finset.mem_filter] at hj ⊢
    exact ⟨hj.1, fun hcon => hj.2 (Nat.lt_succ_of_lt hcon)⟩
  have hsum : (∑ j ∈ Finset.univ.filter (fun j : Fin K => ¬ (j : ℕ) < k + 1),
      md.coefficients i j ^ 2)
      ≤ ∑ j ∈ Finset.univ.filter (fun j : Fin K => ¬ (j : ℕ) < k),
          md.coefficients i j ^ 2 :=
    Finset.sum_le_sum_of_subset_of_nonneg hsub fun j _ _ => sq_nonneg _
  rcases Nat.eq_zero_or_pos N with h | h
  · simp [h]
  · have hN : (0 : ℚ) < (N : ℚ) := by exact_mod_cast h
    exact (div_le_div_iff_of_pos_right hN).mpr hsum

end SSM

namespace SSM

lemma basis_linearIndependent {M N K : ℕ} {X : Fin M → Fin N → ℚ}
    {md : FittedModel M N K} (hf : IsFit X md) :
    LinearIndependent ℚ md.basis := by
  rw [Fintype.linearIndependent_iff]
  intro g hg a
  have hg2 : ∀ n, (∑ j, g j * md.basis j n) = 0 := by
    intro n
    have h := congrFun hg n
    simpa [Finset.sum_apply] using h
  have h0 : (∑ n, (∑ j, g j * md.basis j n) * md.basis a n) = 0 :=
    Finset.sum_eq_zero fun n _ => by rw [hg2 n, zero_mul]
  rw [← dot_sum_orthonormal hf.orthonormal g a]
  exact h0

/-- C4: for every valid sample matrix, the fitted model has `K ≤ min(M, N)`
basis vectors (the bound `K ≤ N` holds because orthonormal vectors are
linearly independent) that are mutually orthonormal: each self dot product is
exactly `1` and each pairwise dot product is exactly `0`. -/
theorem C4_basis_count_orthonormal {M N K : ℕ} {X : Fin M → Fin N → ℚ}
    {md : FittedModel M N K} (hf : IsFit X md) :
    K ≤ min M N ∧ (∀ a, dot (md.basis a) (md.basis a) = 1) ∧
      ∀ a b, a ≠ b → dot (md.basis a) (md.basis b) = 0 := by
  refine ⟨le_min hf.hKM ?_, fun a => by rw [hf.orthonormal a a, if_pos rfl],
    fun a b hab => by rw [hf.orthonormal a b, if_neg hab]⟩
  have hcard := (basis_linearIndependent hf).fintype_card_le_finrank
  rwa [Fintype.card_fin, Module.finrank_fin_fun] at hcard

lemma explainedVariance_nonneg {M N K : ℕ} {X : Fin M → Fin N → ℚ}
    {md : FittedModel M N K} (hf : IsFit X md) (j : Fin K) :
    0 ≤ md.explainedVariance j := by
  have h := hf.coeff_orth j j
  rw [if_pos rfl] at h
  have hpos : (0 : ℚ) < (M : ℚ) - 1 := by
    have h2 : (2 : ℚ) ≤ (M : ℚ) := by exact_mod_cast hf.two_le
    linarith
  have hsum : 0 ≤ ∑ i, md.coefficients i j * md.coefficients i j :=
    Finset.sum_nonneg fun i _ => mul_self_nonneg _
  rw [h] at hsum
  nlinarith [hsum, hpos]

/-- C5: the explained variances of a fitted model are non-negative and
non-increasing in the component index, and so are the explained-variance
ratios (`pca.explained_variance_ratio_`) the notebook reads off the model. -/
theorem C5_explainedVariance_sorted_nonneg {M N K : ℕ} {X : Fin M → Fin N → ℚ}
    {md : FittedModel M N K} (hf : IsFit X md) :
    ((∀ j, 0 ≤ md.explainedVariance j) ∧
      ∀ a b : Fin K, a ≤ b → md.explainedVariance b ≤ md.explainedVariance a) ∧
    (∀ j, 0 ≤ explainedVarianceRatio md j) ∧
      ∀ a b : Fin K, a ≤ b →
        explainedVarianceRatio md b ≤ explainedVarianceRatio md a := by
  have hnn : ∀ j, 0 ≤ md.explainedVariance j := explainedVariance_nonneg hf
  have htot : 0 ≤ ∑ j2, md.explainedVariance j2 :=
    Finset.sum_nonneg fun j _ => hnn j
  refine ⟨⟨hnn, hf.sorted⟩, fun j => div_nonneg (hnn j) htot, fun a b hab => ?_⟩
  show md.explainedVariance b / (∑ j2, md.explainedVariance j2)
      ≤ md.explainedVariance a / (∑ j2, md.explainedVariance j2)
  rcases eq_or_lt_of_le htot with h | h
  · rw [← h, div_zero, div_zero]
  · exact (div_le_div_iff_of_pos_right h).mpr (hf.sorted a b hab)

end SSM

namespace SSM

lemma M_sub_one_ne_zero {M N K : ℕ} {X : Fin M → Fin N → ℚ}
    {md : FittedModel M N K} (hf : IsFit X md) : ((M : ℚ) - 1) ≠ 0 := by
  have h2 : (2 : ℚ) ≤ (M : ℚ) := by exact_mod_cast hf.two_le
  intro h
  linarith

lemma basis_ne_zero {M N K : ℕ} {X : Fin M → Fin N → ℚ}
    {md : FittedModel M N K} (hf : IsFit X md) (j : Fin K) :
    md.basis j ≠ 0 := by
  intro h
  have horth := hf.orthonormal j j
  rw [if_pos rfl, h] at horth
  simp [dot] at horth

lemma cov_mulVec_eq {M N : ℕ} (C : Fin M → Fin N → ℚ) (v : Fin N → ℚ) (a : Fin N) :
    (∑ b, cov C a b * v b) = (∑ i, dot (C i) v * C i a) / ((M : ℚ) - 1) := by
  calc (∑ b, (∑ i, C i a * C i b) / ((M : ℚ) - 1) * v b)
      = ∑ b, (∑ i, C i a * C i b * v b) / ((M : ℚ) - 1) := by
        refine Finset.sum_congr rfl fun b _ => ?_
        rw [div_mul_eq_mul_div, Finset.sum_mul]
    _ = (∑ b, ∑ i, C i a * C i b * v b) / ((M : ℚ) - 1) := by
        rw [Finset.sum_div]
    _ = (∑ i, ∑ b, C i a * C i b * v b) / ((M : ℚ) - 1) := by
        rw [Finset.sum_comm]
    _ = (∑ i, dot (C i) v * C i a) / ((M : ℚ) - 1) := by
        congr 1
        refine Finset.sum_congr rfl fun i _ => ?_
        rw [dot, Finset.sum_mul]
        refine Finset.sum_congr rfl fun b _ => ?_
        ring

lemma cov_apply_basis {M N K : ℕ} {X : Fin M → Fin N → ℚ}
    {md : FittedModel M N K} (hf : IsFit X md) (j : Fin K) (a : Fin N) :
    (∑ b, cov (centered X) a b * md.basis j b)
      = md.explainedVariance j * md.basis j a := by
  rw [cov_mulVec_eq]
  calc (∑ i, dot (centered X i) (md.basis j) * centered X i a) / ((M : ℚ) - 1)
      = (∑ i, md.coefficients i j * ∑ l, md.coefficients i l * md.basis l a)
          / ((M : ℚ) - 1) := by
        congr 1
        refine Finset.sum_congr rfl fun i _ => ?_
        rw [← hf.coeff_eq i j, hf.reconstruct i a]
    _ = (∑ i, ∑ l, md.coefficients i j * (md.coefficients i l * md.basis l a))
          / ((M : ℚ) - 1) := by
        congr 1
        refine Finset.sum_congr rfl fun i _ => ?_
        rw [Finset.mul_sum]
    _ = (∑ l, ∑ i, md.coefficients i j * (md.coefficients i l * md.basis l a))
          / ((M : ℚ) - 1) := by
        rw [Finset.sum_comm]
    _ = (∑ l, (∑ i, md.coefficients i l * md.coefficients i j) * md.basis l a)
          / ((M : ℚ) - 1) := by
        congr 1
        refine Finset.sum_congr rfl fun l _ => ?_
        rw [Finset.sum_mul]
        refine Finset.sum_congr rfl fun i _ => ?_
        ring
    _ = (((M : ℚ) - 1) * md.explainedVariance j * md.basis j a) / ((M : ℚ) - 1) := by
        congr 1
        calc (∑ l, (∑ i, md.coefficients i l * md.coefficients i j) * md.basis l a)
            = ∑ l, if l = j then ((M : ℚ) - 1) * md.explainedVariance l * md.basis l a
                else 0 := by
              refine Finset.sum_congr rfl fun l _ => ?_
              rw [hf.coeff_orth l j]
              by_cases h : l = j <;> simp [h]
          _ = ((M : ℚ) - 1) * md.explainedVariance j * md.basis j a := by
              rw [Finset.sum_ite_eq' Finset.univ j]
              simp
    _ = md.explainedVariance j * md.basis j a := by
        rw [mul_assoc, mul_div_cancel_left₀ _ (M_sub_one_ne_zero hf)]

/-- C1: refinement of the PCA decomposition against eigen-decomposition of
the `N x N` covariance matrix of the centered data.  Forward direction: every
basis vector of the fitted model is an eigenvector of the covariance matrix
whose eigenvalue is exactly that component's explained variance (same
variance magnitudes).  Converse direction: every eigenvector of the
covariance matrix with a nonzero eigenvalue lies in the span of the model's
basis (same spanned subspace for the directions that carry variance). -/
theorem C1_cov_eigen_equivalence {M N K : ℕ} {X : Fin M → Fin N → ℚ}
    {md : FittedModel M N K} (hf : IsFit X md) :
    (∀ j : Fin K,
      IsEigenpair (cov (centered X)) (md.explainedVariance j) (md.basis j)) ∧
    ∀ (lam : ℚ) (v : Fin N → ℚ), lam ≠ 0 →
      IsEigenpair (cov (centered X)) lam v →
        v ∈ Submodule.span ℚ (Set.range md.basis) := by
  constructor
  · exact fun j => ⟨basis_ne_zero hf j, fun a => cov_apply_basis hf j a⟩
  · intro lam v hlam hv
    obtain ⟨-, heig⟩ := hv
    have hnum : ∀ a : Fin N,
        (∑ l, (∑ i, dot (centered X i) v * md.coefficients i l) * md.basis l a)
          = lam * v a * ((M : ℚ) - 1) := by
      intro a
      have h1 := heig a
      rw [cov_mulVec_eq] at h1
      rw [← (div_eq_iff (M_sub_one_ne_zero hf)).mp h1]
      calc (∑ l, (∑ i, dot (centered X i) v * md.coefficients i l) * md.basis l a)
          = ∑ l, ∑ i, dot (centered X i) v * md.coefficients i l * md.basis l a := by
            refine Finset.sum_congr rfl fun l _ => ?_
            rw [Finset.sum_mul]
        _ = ∑ i, ∑ l, dot (centered X i) v * md.coefficients i l * md.basis l a := by
            rw [Finset.sum_comm]
        _ = ∑ i, dot (centered X i) v * centered X i a := by
            refine Finset.sum_congr rfl fun i _ => ?_
            rw [hf.reconstruct i a, Finset.mul_sum]
            refine Finset.sum_congr rfl fun l _ => ?_
            ring
    have hform : v = ∑ l, ((∑ i, dot (centered X i) v * md.coefficients i l)
        / (((M : ℚ) - 1) * lam)) • md.basis l := by
      funext a
      rw [Finset.sum_apply]
      calc v a
          = (lam * v a * ((M : ℚ) - 1)) / (((M : ℚ) - 1) * lam) := by
            have hD : (((M : ℚ) - 1) * lam) ≠ 0 :=
              mul_ne_zero (M_sub_one_ne_zero hf) hlam
            rw [show lam * v a * ((M : ℚ) - 1) = (((M : ℚ) - 1) * lam) * v a by ring,
              mul_div_cancel_left₀ _ hD]
        _ = (∑ l, (∑ i, dot (centered X i) v * md.coefficients i l) * md.basis l a)
              / (((M : ℚ) - 1) * lam) := by rw [hnum a]
        _ = ∑ l, ((∑ i, dot (centered X i) v * md.coefficients i l)
              / (((M : ℚ) - 1) * lam)) • md.basis l a := by
            rw [Finset.sum_div]
            refine Finset.sum_congr rfl fun l _ => ?_
            rw [smul_eq_mul, div_mul_eq_mul_div]
        _ = ∑ l, (((∑ i, dot (centered X i) v * md.coefficients i l)
              / (((M : ℚ) - 1) * lam)) • md.basis l) a := by
            refine Finset.sum_congr rfl fun l _ => ?_
            rw [Pi.smul_apply]
    rw [hform]
    exact Submodule.sum_mem _ fun l _ =>
      Submodule.smul_mem _ _ (Submodule.subset_span ⟨l, rfl⟩)

end SSM

namespace SSM

/-- A concrete sample matrix with `M = 2` samples and `N = 1` feature. -/
def sampleX : Fin 2 → Fin 1 → ℚ := fun i _ => if i = 0 then 0 else 2

/-- A concrete fitted model for `sampleX`. -/
def sampleModel : FittedModel 2 1 1 where
  meanShape := fun _ => 1
  basis := fun _ _ => 1
  explainedVariance := fun _ => 2
  coefficients := fun i _ => if i = 0 then -1 else 1

lemma sampleModel_isFit : IsFit sampleX sampleModel := by
  refine ⟨?_, ?_, ?_, ?_, ?_, ?_, ?_, ?_⟩
  · funext n
    simp [sampleModel, sampleX, colMean, Fin.sum_univ_two]
  · decide
  · decide
  · intro a b
    fin_cases a
    fin_cases b
    simp [sampleModel, dot, Fin.sum_univ_one]
  · intro i j
    fin_cases i <;> fin_cases j <;>
      simp [sampleModel, sampleX, dot, centered, colMean,
        Fin.sum_univ_two, Fin.sum_univ_one]
    norm_num
  · intro i n
    fin_cases i <;> fin_cases n <;>
      simp [sampleModel, sampleX, centered, colMean,
        Fin.sum_univ_two, Fin.sum_univ_one]
    norm_num
  · intro a b
    fin_cases a
    fin_cases b
    simp [sampleModel, Fin.sum_univ_two]
    norm_num
  · intro a b hab
    fin_cases a
    fin_cases b
    simp

theorem C2_roundtrip_exact_witness :
    decode sampleModel (encode sampleModel (sampleX 0)) 1 0 = sampleX 0 0 :=
  C2_roundtrip_exact sampleModel_isFit 0 0

theorem C3_error_monotone_witness :
    reconstructionError (sampleX 0) (decode sampleModel (sampleModel.coefficients 0) 1)
      ≤ reconstructionError (sampleX 0) (decode sampleModel (sampleModel.coefficients 0) 0) :=
  C3_error_monotone sampleModel_isFit 0 0

theorem C4_basis_count_orthonormal_witness :
    1 ≤ min 2 1 ∧ dot (sampleModel.basis 0) (sampleModel.basis 0) = 1 :=
  ⟨(C4_basis_count_orthonormal sampleModel_isFit).1,
   (C4_basis_count_orthonormal sampleModel_isFit).2.1 0⟩

theorem C5_explainedVariance_sorted_nonneg_witness :
    0 ≤ sampleModel.explainedVariance 0 ∧ 0 ≤ explainedVarianceRatio sampleModel 0 :=
  ⟨(C5_explainedVariance_sorted_nonneg sampleModel_isFit).1.1 0,
   (C5_explainedVariance_sorted_nonneg sampleModel_isFit).2.1 0⟩

theorem C1_cov_eigen_equivalence_witness :
    IsEigenpair (cov (centered sampleX)) (sampleModel.explainedVariance 0)
      (sampleModel.basis 0) :=
  (C1_cov_eigen_equivalence sampleModel_isFit).1 0

end SSM
